import Mathlib

set_option maxRecDepth 10000

/-!
Shallow embedding of the JobStalker core components
(`cache.py`, `database.py`, `state.py`) together with proofs about the
specification claims.

Modelling conventions:
* Python `str` values are lists of characters (`Str`); slicing `s[:n]`
  is `List.take n`.
* Python `float` timestamps and durations are rationals; the current
  wall-clock time (`time.time()`) is passed explicitly as a `now`
  argument to every operation that reads the clock.
* `dict` / `OrderedDict` are association lists in insertion order, the
  front being the oldest (least-recently-used) binding.
* `async` operations are modelled as sequential state transformers:
  every claim treated here is about sequential behaviour.  The one
  place where blocking matters (`DatabasePool`'s non-reentrant
  `asyncio.Lock`) is modelled by returning `Option` states, `none`
  standing for "blocks forever".
-/

namespace JobStalker

/-- Python `str`, as the list of its characters. -/
abbrev Str : Type := List Char

/-! ### Python dict primitives (insertion-ordered association lists) -/

/-- `d.get(k)`: the value bound to `k`, if any. -/
def dictGet {κ β : Type} [DecidableEq κ] (k : κ) : List (κ × β) → Option β
  | [] => none
  | (k1, v) :: rest => if k1 = k then some v else dictGet k rest

/-- `d[k] = v`: a Python dict assignment replaces the value in place when
the key is already present (keeping its position) and otherwise appends
the new binding at the end. -/
def dictSet {κ β : Type} [DecidableEq κ] (k : κ) (v : β) : List (κ × β) → List (κ × β)
  | [] => [(k, v)]
  | (k1, v1) :: rest =>
    if k1 = k then (k1, v) :: rest else (k1, v1) :: dictSet k v rest

/-- `del d[k]`: remove the binding of `k` (the first one, which is the
only one when the keys are distinct). -/
def dictDelete {κ β : Type} [DecidableEq κ] (k : κ) : List (κ × β) → List (κ × β)
  | [] => []
  | (k1, v1) :: rest =>
    if k1 = k then rest else (k1, v1) :: dictDelete k rest

/-! ### `cache.py`: `CacheEntry` -/

/-- `CacheEntry` (cache.py lines 25-40): a stored value together with its
creation time, time-to-live and per-entry hit counter. -/
structure CacheEntry (α : Type) where
  value : α
  created_at : ℚ
  ttl : ℚ
  hits : ℕ
deriving Repr, DecidableEq

/-- `CacheEntry.is_expired` (cache.py line 36):
`time.time() - self.created_at > self.ttl`. -/
def CacheEntry.is_expired {α : Type} (e : CacheEntry α) (now : ℚ) : Bool :=
  e.ttl < now - e.created_at

/-! ### `cache.py`: `LRUCache` -/

/-- `LRUCache` (cache.py lines 43-66): ordered mapping from key to entry
(front = least recently used) plus hit/miss counters. -/
structure LRUCache (α : Type) where
  max_size : ℕ
  default_ttl : ℚ
  cache : List (Str × CacheEntry α)
  hits : ℕ
  misses : ℕ
deriving Repr, DecidableEq

/-- A fresh cache, as built by `LRUCache.__init__` (cache.py lines 54-66). -/
def mkLRUCache (α : Type) (max_size : ℕ) (default_ttl : ℚ) : LRUCache α :=
  { max_size := max_size, default_ttl := default_ttl,
    cache := [], hits := 0, misses := 0 }

/-- `LRUCache.get` (cache.py lines 68-89).  Returns the looked-up value
and the updated cache.  An absent key is a miss; an expired entry is
deleted and counted as a miss; otherwise the entry is moved to the
most-recently-used end (`move_to_end`), its hit counter is bumped
(`entry.touch()`), the cache-level `hits` counter is bumped, and the
value is returned. -/
def LRUCache.get {α : Type} (c : LRUCache α) (key : Str) (now : ℚ) :
    Option α × LRUCache α :=
  match dictGet key c.cache with
  | none => (none, { c with misses := c.misses + 1 })
  | some entry =>
    if entry.is_expired now then
      (none, { c with cache := dictDelete key c.cache, misses := c.misses + 1 })
    else
      (some entry.value,
        { c with
          cache := dictDelete key c.cache ++ [(key, { entry with hits := entry.hits + 1 })],
          hits := c.hits + 1 })

/-- The eviction loop of `LRUCache.set` (cache.py lines 100-103):
`while len(self._cache) >= self.max_size: del self._cache[next(iter(self._cache))]`.
For `max_size = 0` Python would raise `StopIteration` once the dict is
empty; every claim below assumes a positive capacity, where the loop is
total and this translation is exact. -/
def evictWhile {α : Type} (max_size : ℕ) : List (Str × CacheEntry α) → List (Str × CacheEntry α)
  | [] => []
  | (k, e) :: rest =>
    if max_size ≤ rest.length + 1 then evictWhile max_size rest
    else (k, e) :: rest

/-- `ttl or self.default_ttl` (cache.py line 107): Python treats both
`None` and `0.0` as falsy, so a zero TTL argument silently becomes the
default TTL. -/
def resolveTtl (ttl : Option ℚ) (default_ttl : ℚ) : ℚ :=
  match ttl with
  | none => default_ttl
  | some t => if t = 0 then default_ttl else t

/-- `LRUCache.set` (cache.py lines 91-109): evict from the front while at
or above capacity, then bind `key` to a fresh entry whose `created_at`
is the current time. -/
def LRUCache.set {α : Type} (c : LRUCache α) (key : Str) (value : α)
    (ttl : Option ℚ) (now : ℚ) : LRUCache α :=
  { c with
    cache :=
      dictSet key
        { value := value, created_at := now, ttl := resolveTtl ttl c.default_ttl, hits := 0 }
        (evictWhile c.max_size c.cache) }

/-- The numeric part of `LRUCache.stats` (cache.py lines 146-158).
`hit_rate` is the value computed at line 150, `hits / total * 100` when
`total > 0` and `0` otherwise; the Python code renders it as the string
`f"{hit_rate:.1f}%"`. -/
structure CacheStats where
  size : ℕ
  max_size : ℕ
  hits : ℕ
  misses : ℕ
  hit_rate : ℚ
deriving Repr, DecidableEq

/-- `LRUCache.stats` (cache.py lines 146-158), keeping the numeric value
of the reported hit rate. -/
def LRUCache.stats {α : Type} (c : LRUCache α) : CacheStats :=
  let total := c.hits + c.misses
  { size := c.cache.length,
    max_size := c.max_size,
    hits := c.hits,
    misses := c.misses,
    hit_rate := if 0 < total then (c.hits : ℚ) / (total : ℚ) * 100 else 0 }

/-! ### Operation sequences over an `LRUCache` -/

/-- One `set` or `get` call, tagged with the wall-clock time at which it
runs. -/
inductive CacheOp (α : Type) where
  | set (key : Str) (value : α) (ttl : Option ℚ) (now : ℚ)
  | get (key : Str) (now : ℚ)

/-- Apply one operation, discarding the value returned by `get`. -/
def applyOp {α : Type} (c : LRUCache α) : CacheOp α → LRUCache α
  | .set k v ttl now => c.set k v ttl now
  | .get k now => (c.get k now).2

/-- Run a sequence of operations from left to right. -/
def runOps {α : Type} (c : LRUCache α) (ops : List (CacheOp α)) : LRUCache α :=
  ops.foldl applyOp c

/-- Run a sequence of operations, also counting how many `get` calls
returned a value (observed hits) and how many returned nothing
(observed misses). -/
def runTrace {α : Type} (c : LRUCache α) : List (CacheOp α) → LRUCache α × ℕ × ℕ
  | [] => (c, 0, 0)
  | .set k v ttl now :: rest => runTrace (c.set k v ttl now) rest
  | .get k now :: rest =>
    let r := c.get k now
    let t := runTrace r.2 rest
    (t.1, t.2.1 + (if r.1.isSome then 1 else 0), t.2.2 + (if r.1.isNone then 1 else 0))

/-! ### `cache.py`: `AIResponseCache`

The façade is a single `LRUCache` (`self._cache`, built with
`max_size = 200`, `default_ttl = TTL_VACANCY_ANALYSIS`).  The MD5 digest
used by `_make_key` is kept abstract: every statement below is proved
for an arbitrary digest function `H : Str → Str`, so in particular for
MD5. -/

/-- `AIResponseCache.TTL_VACANCY_ANALYSIS` (cache.py line 180). -/
def TTL_VACANCY_ANALYSIS : ℚ := 3600

/-- `AIResponseCache.TTL_RECRUITER_ANALYSIS` (cache.py line 181). -/
def TTL_RECRUITER_ANALYSIS : ℚ := 1800

/-- `AIResponseCache._make_key` (cache.py lines 192-196):
`f"{model}:{hashlib.md5(prompt[:500].encode()).hexdigest()}"`, with the
digest abstracted as `H`. -/
def make_key (H : Str → Str) (prompt model : Str) : Str :=
  model ++ (':' :: H (prompt.take 500))

/-- `AIResponseCache.get_vacancy_analysis` (cache.py lines 198-205). -/
def get_vacancy_analysis {α : Type} (H : Str → Str) (c : LRUCache α)
    (vacancy_text model : Str) (now : ℚ) : Option α × LRUCache α :=
  c.get (make_key H vacancy_text model) now

/-- `AIResponseCache.set_vacancy_analysis` (cache.py lines 207-215). -/
def set_vacancy_analysis {α : Type} (H : Str → Str) (c : LRUCache α)
    (vacancy_text model : Str) (result : α) (now : ℚ) : LRUCache α :=
  c.set (make_key H vacancy_text model) result (some TTL_VACANCY_ANALYSIS) now

/-- The `combined` prompt of the recruiter-analysis pair
(cache.py lines 224 and 236): `f"{vacancy_text[:500]}|{resume_text[:500]}"`. -/
def recruiter_combined (vacancy_text resume_text : Str) : Str :=
  vacancy_text.take 500 ++ ('|' :: resume_text.take 500)

/-- `AIResponseCache.get_recruiter_analysis` (cache.py lines 217-226). -/
def get_recruiter_analysis {α : Type} (H : Str → Str) (c : LRUCache α)
    (vacancy_text resume_text model : Str) (now : ℚ) : Option α × LRUCache α :=
  c.get (make_key H (recruiter_combined vacancy_text resume_text) model) now

/-- `AIResponseCache.set_recruiter_analysis` (cache.py lines 228-238). -/
def set_recruiter_analysis {α : Type} (H : Str → Str) (c : LRUCache α)
    (vacancy_text resume_text model : Str) (result : α) (now : ℚ) : LRUCache α :=
  c.set (make_key H (recruiter_combined vacancy_text resume_text) model) result
    (some TTL_RECRUITER_ANALYSIS) now

/-! ### `cache.py`: `cached_ai_call` -/

/-- The outcome of one `cached_ai_call` invocation: the returned value,
the cache state afterwards, and whether `func` was awaited. -/
structure CachedCall (α : Type) where
  result : Option α
  state : LRUCache α
  invoked : Bool
deriving Repr, DecidableEq

/-- `cached_ai_call` (cache.py lines 262-293), with the underlying
`LRUCache` passed explicitly instead of the global `get_ai_cache()`
instance, and `func_result` standing for the value `await func(*args,
**kwargs)` would produce.  A cached value is returned without invoking
`func`; on a miss `func` is invoked and its result is returned, being
stored first only when it is not `None`. -/
def cached_ai_call {α : Type} (c : LRUCache α) (cache_key : Str) (ttl : ℚ)
    (func_result : Option α) (now : ℚ) : CachedCall α :=
  let r := c.get cache_key now
  match r.1 with
  | some cached => { result := some cached, state := r.2, invoked := false }
  | none =>
    match func_result with
    | none => { result := none, state := r.2, invoked := true }
    | some v =>
      { result := some v, state := r.2.set cache_key v (some ttl) now, invoked := true }

/-! ### `database.py`: `DatabasePool`

Sequential (single task) semantics.  `asyncio.Lock` is not reentrant:
awaiting `async with self._lock` while the same task already holds the
lock blocks forever.  Blocking is modelled by the result `none`. -/

/-- The observable state of a `DatabasePool` (database.py lines 37-49):
number of connections ever created (`len(self._connections)`), number
available in the queue (`self._pool.qsize()`), the `_initialized` flag
(field `ready`), and whether the running task currently holds
`self._lock`. -/
structure PoolState where
  pool_size : ℕ
  connections : ℕ
  available : ℕ
  ready : Bool
  lock_held : Bool
deriving Repr, DecidableEq

/-- A fresh pool, as built by `DatabasePool.__init__`
(database.py lines 37-49). -/
def mkPool (pool_size : ℕ) : PoolState :=
  { pool_size := pool_size, connections := 0, available := 0,
    ready := false, lock_held := false }

/-- A call to `DatabasePool.initialize` (database.py lines 51-94) made
while the running task already holds `self._lock`: the early return at
line 53 fires when `_initialized` is set, otherwise line 56
(`async with self._lock`) blocks forever on the non-reentrant lock. -/
def poolInitLocked (s : PoolState) : Option PoolState :=
  if s.ready then some s else none

/-- `DatabasePool.acquire` (database.py lines 96-109) as entered from
line 77, inside `initialize`, while the lock is held: line 99 sees
`_initialized` still false and awaits `self.initialize()` (modelled by
`poolInitLocked`); only if that returned would a connection be taken
from and then returned to the queue, leaving `available` unchanged. -/
def poolAcquireDuringInit (s : PoolState) : Option PoolState :=
  match (if ¬ s.ready then poolInitLocked s else some s) with
  | none => none
  | some s1 => some s1

/-- A top-level call to `DatabasePool.initialize` (database.py lines
51-94) by a task that does not yet hold the lock: early return when
already initialized (line 53); otherwise take the lock (line 56),
re-check (line 57), create `pool_size` connections and put them in the
queue (lines 64-74), run the schema statements under
`async with self.acquire()` (line 77), then set `_initialized` and
release the lock. -/
def poolInit (s : PoolState) : Option PoolState :=
  if s.ready then some s
  else if s.lock_held then none
  else
    let s1 : PoolState := { s with lock_held := true }
    if s1.ready then some { s1 with lock_held := false }
    else
      let s2 : PoolState :=
        { s1 with
          connections := s1.connections + s1.pool_size,
          available := s1.available + s1.pool_size }
      match poolAcquireDuringInit s2 with
      | none => none
      | some s3 => some { s3 with ready := true, lock_held := false }

/-! ### `state.py`: the background improvement-task registry -/

/-- One value of `AppState._improvement_tasks` (state.py lines 230-235):
`{"task": task, "status": status}`, plus an optional `"result"` added by
`update_improvement_task`. -/
structure TaskInfo (τ ρ : Type) where
  task : τ
  status : Str
  result : Option ρ
deriving Repr, DecidableEq

/-- `AppState.add_improvement_task` (state.py lines 229-235). -/
def add_improvement_task {τ ρ : Type} (tasks : List (Str × TaskInfo τ ρ))
    (vacancy_id : Str) (task : τ) : List (Str × TaskInfo τ ρ) :=
  dictSet vacancy_id { task := task, status := "running".data, result := none } tasks

/-- `AppState.update_improvement_task` (state.py lines 237-242): update
the info in place when the id is registered (Python mutates the inner
dict, so the entry keeps its position). -/
def update_improvement_task {τ ρ : Type} (tasks : List (Str × TaskInfo τ ρ))
    (vacancy_id : Str) (status : Str) (result : Option ρ) : List (Str × TaskInfo τ ρ) :=
  match dictGet vacancy_id tasks with
  | none => tasks
  | some info =>
    dictSet vacancy_id
      { info with
        status := status,
        result := match result with | none => info.result | some r => some r }
      tasks

/-- `info.get("status") in ("completed", "error")` (state.py line 257). -/
def isDone {τ ρ : Type} (info : TaskInfo τ ρ) : Bool :=
  info.status = "completed".data ∨ info.status = "error".data

/-- `AppState.cleanup_improvement_tasks` (state.py lines 250-262):
collect the ids of completed/errored entries in registry order; when
there are more than `max_completed` of them, delete the ids in
`completed[:-max_completed]`.  Note the Python quirk: when
`max_completed = 0` that slice is `completed[:0] = []`, so nothing is
removed. -/
def cleanup_improvement_tasks {τ ρ : Type} (tasks : List (Str × TaskInfo τ ρ))
    (max_completed : ℕ) : List (Str × TaskInfo τ ρ) :=
  let completed := (tasks.filter (fun p => isDone p.2)).map Prod.fst
  if completed.length > max_completed then
    let to_remove :=
      if max_completed = 0 then []
      else completed.take (completed.length - max_completed)
    to_remove.foldl (fun acc vid => dictDelete vid acc) tasks
  else tasks

/-! ## Helper lemmas about the dict primitives -/

section DictLemmas

variable {κ β : Type} [DecidableEq κ]

theorem dictGet_dictSet_self (k : κ) (v : β) (l : List (κ × β)) :
    dictGet k (dictSet k v l) = some v := by
  induction l with
  | nil => simp [dictGet, dictSet]
  | cons p rest ih =>
    obtain ⟨k1, v1⟩ := p
    by_cases h : k1 = k
    · simp [dictGet, dictSet, h]
    · simp [dictGet, dictSet, h, ih]

theorem dictSet_of_not_mem {k : κ} (v : β) {l : List (κ × β)}
    (h : k ∉ l.map Prod.fst) : dictSet k v l = l ++ [(k, v)] := by
  induction l with
  | nil => simp [dictSet]
  | cons p rest ih =>
    obtain ⟨k1, v1⟩ := p
    simp only [List.map_cons, List.mem_cons] at h
    push_neg at h
    have h1 : k1 ≠ k := fun hh => h.1 hh.symm
    simp [dictSet, h1, ih h.2]

theorem dictSet_length_le (k : κ) (v : β) (l : List (κ × β)) :
    (dictSet k v l).length ≤ l.length + 1 := by
  induction l with
  | nil => simp [dictSet]
  | cons p rest ih =>
    obtain ⟨k1, v1⟩ := p
    by_cases h : k1 = k
    · simp [dictSet, h]
    · simpa [dictSet, h] using ih

theorem mem_keys_dictSet {a k : κ} {v : β} {l : List (κ × β)}
    (h : a ∈ (dictSet k v l).map Prod.fst) : a = k ∨ a ∈ l.map Prod.fst := by
  induction l with
  | nil => simpa [dictSet] using h
  | cons p rest ih =>
    obtain ⟨k1, v1⟩ := p
    by_cases hk : k1 = k
    · simp only [dictSet, if_pos hk, List.map_cons, List.mem_cons] at h ⊢
      tauto
    · simp only [dictSet, if_neg hk, List.map_cons, List.mem_cons] at h ⊢
      rcases h with h | h
      · tauto
      · rcases ih h with h1 | h1 <;> tauto

theorem keys_nodup_dictSet {k : κ} {v : β} {l : List (κ × β)}
    (h : (l.map Prod.fst).Nodup) : ((dictSet k v l).map Prod.fst).Nodup := by
  induction l with
  | nil => simp [dictSet]
  | cons p rest ih =>
    obtain ⟨k1, v1⟩ := p
    simp only [List.map_cons, List.nodup_cons] at h
    by_cases hk : k1 = k
    · simpa [dictSet, hk, List.nodup_cons] using h
    · simp only [dictSet, if_neg hk, List.map_cons, List.nodup_cons]
      refine ⟨fun hmem => ?_, ih h.2⟩
      rcases mem_keys_dictSet hmem with h1 | h1
      · exact hk h1
      · exact h.1 h1

theorem dictDelete_sublist (k : κ) (l : List (κ × β)) :
    (dictDelete k l).Sublist l := by
  induction l with
  | nil => simp [dictDelete]
  | cons p rest ih =>
    obtain ⟨k1, v1⟩ := p
    by_cases h : k1 = k
    · simp only [dictDelete, if_pos h]
      exact List.sublist_cons_self _ _
    · simpa [dictDelete, h] using ih.cons₂ (k1, v1)

theorem dictDelete_eq_filter {k : κ} {l : List (κ × β)}
    (h : (l.map Prod.fst).Nodup) :
    dictDelete k l = l.filter (fun p => p.1 ≠ k) := by
  induction l with
  | nil => simp [dictDelete]
  | cons p rest ih =>
    obtain ⟨k1, v1⟩ := p
    simp only [List.map_cons, List.nodup_cons] at h
    by_cases hk : k1 = k
    · subst hk
      have hrest : rest.filter (fun p => p.1 ≠ k1) = rest := by
        refine List.filter_eq_self.2 fun p hp => ?_
        simp only [decide_not, Bool.not_eq_true', decide_eq_false_iff_not]
        exact fun he => h.1 (he ▸ List.mem_map_of_mem Prod.fst hp)
      simp only [ne_eq, decide_not] at hrest
      simp [dictDelete, hrest]
    · simp [dictDelete, hk, ih h.2]

theorem dictDelete_length_of_get {k : κ} {v : β} {l : List (κ × β)}
    (h : dictGet k l = some v) : (dictDelete k l).length + 1 = l.length := by
  induction l with
  | nil => simp [dictGet] at h
  | cons p rest ih =>
    obtain ⟨k1, v1⟩ := p
    by_cases hk : k1 = k
    · simp [dictDelete, hk]
    · simp only [dictGet, if_neg hk] at h
      simpa [dictDelete, hk] using ih h

theorem map_fst_filter_ne (k : κ) (l : List (κ × β)) :
    (l.filter (fun p => p.1 ≠ k)).map Prod.fst
      = (l.map Prod.fst).filter (fun a => a ≠ k) := by
  rw [List.filter_map]; rfl

theorem dictGet_eq_none_of_not_mem {k : κ} {l : List (κ × β)}
    (h : k ∉ l.map Prod.fst) : dictGet k l = none := by
  induction l with
  | nil => simp [dictGet]
  | cons p rest ih =>
    simp only [List.map_cons, List.mem_cons] at h
    push_neg at h
    have h1 : p.1 ≠ k := fun hh => h.1 hh.symm
    simp [dictGet, h1, ih h.2]

theorem foldl_dictDelete_eq_filter (ks : List κ) {l : List (κ × β)}
    (h : (l.map Prod.fst).Nodup) :
    ks.foldl (fun acc vid => dictDelete vid acc) l
      = l.filter (fun p => p.1 ∉ ks) := by
  induction ks generalizing l with
  | nil => simp
  | cons k ks ih =>
    have hdel : (dictDelete k l).map Prod.fst
        = (l.map Prod.fst).filter (fun a => a ≠ k) := by
      rw [dictDelete_eq_filter h, map_fst_filter_ne]
    have hnd : ((dictDelete k l).map Prod.fst).Nodup := by
      rw [hdel]; exact h.filter _
    calc (k :: ks).foldl (fun acc vid => dictDelete vid acc) l
        = ks.foldl (fun acc vid => dictDelete vid acc) (dictDelete k l) := rfl
      _ = (dictDelete k l).filter (fun p => p.1 ∉ ks) := ih hnd
      _ = (l.filter (fun p => p.1 ≠ k)).filter (fun p => p.1 ∉ ks) := by
          rw [dictDelete_eq_filter h]
      _ = l.filter (fun p => p.1 ∉ k :: ks) := by
          rw [List.filter_filter]
          refine List.filter_congr fun p hp => ?_
          by_cases h1 : p.1 = k <;> by_cases h2 : p.1 ∈ ks <;> simp [h1, h2]

end DictLemmas

/-! ## Helper lemmas about the eviction loop -/

theorem evictWhile_sublist {α : Type} (m : ℕ) (l : List (Str × CacheEntry α)) :
    (evictWhile m l).Sublist l := by
  induction l with
  | nil => simp [evictWhile]
  | cons p rest ih =>
    obtain ⟨k, e⟩ := p
    by_cases h : m ≤ rest.length + 1
    · simp only [evictWhile, if_pos h]
      exact ih.trans (List.sublist_cons_self _ _)
    · simp [evictWhile, h]

theorem evictWhile_length_lt {α : Type} {m : ℕ} (hm : 0 < m)
    (l : List (Str × CacheEntry α)) : (evictWhile m l).length < m := by
  induction l with
  | nil => simpa [evictWhile] using hm
  | cons p rest ih =>
    obtain ⟨k, e⟩ := p
    by_cases h : m ≤ rest.length + 1
    · simpa [evictWhile, h] using ih
    · simp only [evictWhile, if_neg h]
      simpa using Nat.lt_of_not_le h

theorem evictWhile_of_length_lt {α : Type} {m : ℕ} {l : List (Str × CacheEntry α)}
    (h : l.length < m) : evictWhile m l = l := by
  cases l with
  | nil => rfl
  | cons p rest =>
    obtain ⟨k, e⟩ := p
    simp only [List.length_cons] at h
    simp [evictWhile, Nat.not_le.2 h]

theorem evictWhile_eq_tail {α : Type} {m : ℕ} {l : List (Str × CacheEntry α)}
    (h : l.length = m) : evictWhile m l = l.tail := by
  cases l with
  | nil => rfl
  | cons p rest =>
    obtain ⟨k, e⟩ := p
    simp only [List.length_cons] at h
    have hcond : m ≤ rest.length + 1 := h.ge
    have hrest : rest.length < m := by omega
    simp [evictWhile, hcond, evictWhile_of_length_lt hrest]

/-! ## Unfolding equations for `LRUCache.get` -/

theorem get_miss_eq {α : Type} {c : LRUCache α} {key : Str} (now : ℚ)
    (hget : dictGet key c.cache = none) :
    c.get key now = (none, { c with misses := c.misses + 1 }) := by
  unfold LRUCache.get
  rw [hget]

theorem get_expired_eq {α : Type} {c : LRUCache α} {key : Str} {now : ℚ}
    {entry : CacheEntry α}
    (hget : dictGet key c.cache = some entry) (hexp : entry.is_expired now = true) :
    c.get key now =
      (none, { c with cache := dictDelete key c.cache, misses := c.misses + 1 }) := by
  unfold LRUCache.get
  rw [hget]
  simp [hexp]

theorem get_hit_eq {α : Type} {c : LRUCache α} {key : Str} {now : ℚ}
    {entry : CacheEntry α}
    (hget : dictGet key c.cache = some entry) (hexp : entry.is_expired now = false) :
    c.get key now =
      (some entry.value,
        { c with
          cache := dictDelete key c.cache ++ [(key, { entry with hits := entry.hits + 1 })],
          hits := c.hits + 1 }) := by
  unfold LRUCache.get
  rw [hget]
  simp [hexp]

/-! ## Invariant preservation for `set` and `get` -/

theorem set_cache_length_le {α : Type} (c : LRUCache α) (hm : 0 < c.max_size)
    (key : Str) (v : α) (ttl : Option ℚ) (now : ℚ) :
    ((c.set key v ttl now).cache).length ≤ c.max_size := by
  have h1 := dictSet_length_le key
    ({ value := v, created_at := now, ttl := resolveTtl ttl c.default_ttl, hits := 0 } :
      CacheEntry α) (evictWhile c.max_size c.cache)
  have h2 := evictWhile_length_lt hm c.cache
  simp only [LRUCache.set]
  omega

theorem set_keys_nodup {α : Type} {c : LRUCache α}
    (h : (c.cache.map Prod.fst).Nodup) (key : Str) (v : α) (ttl : Option ℚ) (now : ℚ) :
    (((c.set key v ttl now).cache).map Prod.fst).Nodup := by
  have h1 : ((evictWhile c.max_size c.cache).map Prod.fst).Nodup :=
    h.sublist ((evictWhile_sublist c.max_size c.cache).map Prod.fst)
  exact keys_nodup_dictSet h1

theorem get_cache_length_le {α : Type} {c : LRUCache α} {m : ℕ}
    (hlen : c.cache.length ≤ m) (key : Str) (now : ℚ) :
    (((c.get key now).2).cache).length ≤ m := by
  rcases hget : dictGet key c.cache with _ | entry
  · simpa [get_miss_eq now hget] using hlen
  · rcases hexp : entry.is_expired now with _ | _
    · have hdel := dictDelete_length_of_get hget
      rw [get_hit_eq hget hexp]
      simp only [List.length_append, List.length_cons, List.length_nil]
      omega
    · have hd := (dictDelete_sublist key c.cache).length_le
      rw [get_expired_eq hget hexp]
      exact le_trans hd hlen

theorem get_keys_nodup {α : Type} {c : LRUCache α}
    (h : (c.cache.map Prod.fst).Nodup) (key : Str) (now : ℚ) :
    ((((c.get key now).2).cache).map Prod.fst).Nodup := by
  rcases hget : dictGet key c.cache with _ | entry
  · simpa [get_miss_eq now hget] using h
  · have hsub : ((dictDelete key c.cache).map Prod.fst).Nodup :=
      h.sublist ((dictDelete_sublist key c.cache).map Prod.fst)
    rcases hexp : entry.is_expired now with _ | _
    · rw [get_hit_eq hget hexp]
      simp only [List.map_append, List.map_cons, List.map_nil]
      refine hsub.append (List.nodup_singleton key) ?_
      intro a ha hb
      simp only [List.mem_singleton] at hb
      subst hb
      rw [dictDelete_eq_filter h, map_fst_filter_ne] at ha
      exact absurd (List.mem_filter.1 ha).2 (by simp)
    · simpa [get_expired_eq hget hexp] using hsub

/-! ## Counter bookkeeping -/

@[simp] theorem set_hits {α : Type} (c : LRUCache α) (k : Str) (v : α)
    (ttl : Option ℚ) (now : ℚ) : (c.set k v ttl now).hits = c.hits := rfl

@[simp] theorem set_misses {α : Type} (c : LRUCache α) (k : Str) (v : α)
    (ttl : Option ℚ) (now : ℚ) : (c.set k v ttl now).misses = c.misses := rfl

@[simp] theorem set_max_size {α : Type} (c : LRUCache α) (k : Str) (v : α)
    (ttl : Option ℚ) (now : ℚ) : (c.set k v ttl now).max_size = c.max_size := rfl

theorem get_counts {α : Type} (c : LRUCache α) (k : Str) (now : ℚ) :
    ((c.get k now).2).hits = c.hits + (if (c.get k now).1.isSome then 1 else 0)
    ∧ ((c.get k now).2).misses = c.misses + (if (c.get k now).1.isNone then 1 else 0)
    ∧ ((c.get k now).2).max_size = c.max_size := by
  rcases hget : dictGet k c.cache with _ | entry
  · rw [get_miss_eq now hget]; simp
  · rcases hexp : entry.is_expired now with _ | _
    · rw [get_hit_eq hget hexp]; simp
    · rw [get_expired_eq hget hexp]; simp

theorem get_max_size {α : Type} (c : LRUCache α) (k : Str) (now : ℚ) :
    ((c.get k now).2).max_size = c.max_size := (get_counts c k now).2.2

theorem get_default_ttl {α : Type} (c : LRUCache α) (k : Str) (now : ℚ) :
    ((c.get k now).2).default_ttl = c.default_ttl := by
  rcases hget : dictGet k c.cache with _ | entry
  · rw [get_miss_eq now hget]
  · rcases hexp : entry.is_expired now with _ | _
    · rw [get_hit_eq hget hexp]
    · rw [get_expired_eq hget hexp]

theorem runTrace_counters {α : Type} (ops : List (CacheOp α)) :
    ∀ c : LRUCache α,
      ((runTrace c ops).1).hits = c.hits + (runTrace c ops).2.1
      ∧ ((runTrace c ops).1).misses = c.misses + (runTrace c ops).2.2
      ∧ ((runTrace c ops).1).max_size = c.max_size := by
  induction ops with
  | nil => intro c; simp [runTrace]
  | cons op rest ih =>
    intro c
    cases op with
    | set k v ttl now =>
      obtain ⟨h1, h2, h3⟩ := ih (c.set k v ttl now)
      simp only [runTrace]
      exact ⟨by simpa using h1, by simpa using h2, by simpa using h3⟩
    | get k now =>
      obtain ⟨hg1, hg2, hg3⟩ := get_counts c k now
      obtain ⟨h1, h2, h3⟩ := ih (c.get k now).2
      simp only [runTrace]
      refine ⟨?_, ?_, by rw [h3, hg3]⟩ <;>
        rcases hr : (c.get k now).1 with _ | v <;>
        simp only [hr, Option.isSome_none, Option.isNone_none, Option.isSome_some,
          Option.isNone_some, if_true, if_false] at hg1 hg2 ⊢ <;>
        omega

/-! ## The size/key invariant over operation sequences -/

theorem runOps_inv {α : Type} (ops : List (CacheOp α)) :
    ∀ c : LRUCache α, 0 < c.max_size →
      c.cache.length ≤ c.max_size → ((c.cache.map Prod.fst)).Nodup →
      (runOps c ops).max_size = c.max_size
      ∧ (runOps c ops).cache.length ≤ c.max_size
      ∧ (((runOps c ops).cache.map Prod.fst)).Nodup := by
  induction ops with
  | nil => intro c h0 h1 h2; exact ⟨rfl, h1, h2⟩
  | cons op rest ih =>
    intro c h0 h1 h2
    have hstep : (applyOp c op).max_size = c.max_size
        ∧ (applyOp c op).cache.length ≤ c.max_size
        ∧ (((applyOp c op).cache.map Prod.fst)).Nodup := by
      cases op with
      | set k v ttl now =>
        exact ⟨rfl, set_cache_length_le c h0 k v ttl now, set_keys_nodup h2 k v ttl now⟩
      | get k now =>
        exact ⟨get_max_size c k now, get_cache_length_le h1 k now, get_keys_nodup h2 k now⟩
    obtain ⟨hm, hl, hn⟩ := hstep
    obtain ⟨r1, r2, r3⟩ :=
      ih (applyOp c op) (hm ▸ h0) (by rw [hm]; exact hl) hn
    have heq : runOps c (op :: rest) = runOps (applyOp c op) rest := rfl
    rw [heq, r1, hm]
    exact ⟨rfl, by rw [hm] at r2; exact r2, r3⟩

/-! ## Reading back a freshly written entry -/

theorem get_after_set {α : Type} (c : LRUCache α) (key : Str) (v : α)
    (ttl : Option ℚ) (now : ℚ) (hT : 0 ≤ resolveTtl ttl c.default_ttl) :
    ((c.set key v ttl now).get key now).1 = some v := by
  have hget : dictGet key (c.set key v ttl now).cache
      = some { value := v, created_at := now, ttl := resolveTtl ttl c.default_ttl, hits := 0 } :=
    dictGet_dictSet_self key _ _
  have hexp : CacheEntry.is_expired
      (⟨v, now, resolveTtl ttl c.default_ttl, 0⟩ : CacheEntry α) now = false := by
    simp only [CacheEntry.is_expired, sub_self]
    exact decide_eq_false (not_lt.2 hT)
  rw [get_hit_eq hget hexp]

/-! ## Truncation of the recruiter-analysis prompt -/

theorem recruiter_combined_take (r : Str) :
    (recruiter_combined (List.replicate 500 'a') r).take 500 = List.replicate 500 'a' := by
  unfold recruiter_combined
  rw [List.take_replicate, Nat.min_self,
    List.take_append_of_le_length (by simp),
    List.take_replicate, Nat.min_self]

/-! ## Characterising the registry prune -/

theorem filter_not_mem_take_keys {κ β : Type} [DecidableEq κ] :
    ∀ (L : List (κ × β)) (j : ℕ), ((L.map Prod.fst)).Nodup →
      L.filter (fun p => p.1 ∉ (L.map Prod.fst).take j) = L.drop j := by
  intro L
  induction L with
  | nil => intro j _; simp
  | cons p rest ih =>
    intro j h
    simp only [List.map_cons, List.nodup_cons] at h
    cases j with
    | zero =>
      simp only [List.take_zero, List.drop_zero]
      refine List.filter_eq_self.2 fun q hq => by simp
    | succ j =>
      simp only [List.map_cons, List.take_succ_cons, List.filter_cons, List.drop_succ_cons]
      rw [if_neg (by simp)]
      have hcong : rest.filter (fun q => q.1 ∉ p.1 :: (rest.map Prod.fst).take j)
          = rest.filter (fun q => q.1 ∉ (rest.map Prod.fst).take j) := by
        refine List.filter_congr fun q hq => ?_
        have hne : q.1 ≠ p.1 := fun he => h.1 (he ▸ List.mem_map_of_mem Prod.fst hq)
        by_cases hmem : q.1 ∈ (rest.map Prod.fst).take j <;>
          simp [hmem, hne]
      rw [hcong, ih j h.2]

theorem cleanup_of_le {τ ρ : Type} (tasks : List (Str × TaskInfo τ ρ)) (n : ℕ)
    (h : ¬ ((tasks.filter (fun p => isDone p.2)).map Prod.fst).length > n) :
    cleanup_improvement_tasks tasks n = tasks := by
  simp only [cleanup_improvement_tasks, if_neg h]

theorem cleanup_of_gt {τ ρ : Type} (tasks : List (Str × TaskInfo τ ρ)) {n : ℕ}
    (hn : n ≠ 0)
    (h : ((tasks.filter (fun p => isDone p.2)).map Prod.fst).length > n) :
    cleanup_improvement_tasks tasks n =
      (((tasks.filter (fun p => isDone p.2)).map Prod.fst).take
          (((tasks.filter (fun p => isDone p.2)).map Prod.fst).length - n)).foldl
        (fun acc vid => dictDelete vid acc) tasks := by
  simp only [cleanup_improvement_tasks, if_pos h, if_neg hn]

/-! ## The claims -/

/-- C1: the claim that `set(key, value, ttl)` never evicts another entry
and leaves the size unchanged when the key is already present, and that
it places the entry at the most-recently-used position, fails on the
code.  The eviction loop (cache.py lines 100-103) runs before the key
is ever looked up, and a dict assignment keeps an existing key at its
old position.  Concretely: with capacity 2 holding `a` then `b`,
overwriting `b` evicts `a` and shrinks the cache from size 2 to size 1;
with capacity 3, overwriting `a` leaves it at the least-recently-used
front, not the most-recently-used end. -/
theorem C1_overwrite_at_capacity_evicts_cex :
    ((((mkLRUCache ℕ 2 300).set "a".data 1 none 0).set "b".data 2 none 0).cache.length = 2)
    ∧ ((((mkLRUCache ℕ 2 300).set "a".data 1 none 0).set "b".data 2 none 0).set
        "b".data 3 none 0).cache.map Prod.fst = ["b".data]
    ∧ ((((mkLRUCache ℕ 2 300).set "a".data 1 none 0).set "b".data 2 none 0).set
        "b".data 3 none 0).cache.length = 1
    ∧ ((((mkLRUCache ℕ 3 300).set "a".data 1 none 0).set "b".data 2 none 0).set
        "a".data 9 none 0).cache.map Prod.fst = ["a".data, "b".data] := by
  decide

/-- C2: the claim that a first call to `DatabasePool.initialize()`
terminates, creates the resources and marks the pool ready fails on the
code: `initialize` still holds the non-reentrant `asyncio.Lock` when it
runs the schema statements through `self.acquire()` (database.py line
77), `acquire` sees `_initialized` still false and re-enters
`initialize()`, which blocks forever on the same lock (line 56).  In
the sequential model the first call on any not-yet-initialized pool
returns `none` (blocks), for every pool size. -/
theorem C2_first_init_call_blocks (n conn avail : ℕ) :
    poolInit { pool_size := n, connections := conn, available := avail,
               ready := false, lock_held := false } = none := rfl

/-- C3: the claim that two recruiter-analysis requests with the same
vacancy text and model but resume texts differing in their first 500
characters derive different cache keys fails on the code.
`get/set_recruiter_analysis` build `combined = vacancy[:500] + "|" +
resume[:500]`, but `_make_key` truncates `combined` to 500 characters
again, so a 500-character vacancy text pushes the resume text out of
the key entirely: for every digest function `H`, every model and any
two resume texts the keys coincide, and a lookup for the second resume
returns the analysis cached for the first. -/
theorem C3_recruiter_key_ignores_resume (H : Str → Str) (model r1 r2 : Str)
    (result : ℕ) :
    make_key H (recruiter_combined (List.replicate 500 'a') r1) model
      = make_key H (recruiter_combined (List.replicate 500 'a') r2) model
    ∧ (get_recruiter_analysis H
        (set_recruiter_analysis H (mkLRUCache ℕ 200 3600)
          (List.replicate 500 'a') r1 model result 0)
        (List.replicate 500 'a') r2 model 0).1 = some result := by
  have hkey : ∀ r : Str,
      make_key H (recruiter_combined (List.replicate 500 'a') r) model
        = model ++ (':' :: H (List.replicate 500 'a')) := by
    intro r
    unfold make_key
    rw [recruiter_combined_take]
  refine ⟨(hkey r1).trans (hkey r2).symm, ?_⟩
  unfold get_recruiter_analysis set_recruiter_analysis
  rw [hkey r1, hkey r2]
  apply get_after_set
  norm_num [resolveTtl, TTL_RECRUITER_ANALYSIS]

/-- C4: the claim that an entry stored with TTL zero is treated as
expired by every later `get` fails on the code: `ttl or
self.default_ttl` (cache.py line 107) treats the float `0` as falsy, so
the entry is stored with the default TTL (here 300 seconds) and a get
one second later still returns the value. -/
theorem C4_ttl_zero_still_cached_cex :
    ((((mkLRUCache ℕ 100 300).set "k".data 1 (some 0) 0).get "k".data 1).1 = some 1)
    ∧ (((mkLRUCache ℕ 100 300).set "k".data 1 (some 0) 0).cache.map
        (fun p => p.2.ttl) = [300]) := by
  with_unfolding_all decide

/-- C5 counterexample: after a run with exactly one observed hit and one
observed miss, the reported `hit_rate` value is `50` — the percentage
`hits / total * 100` of cache.py line 150 — and not the ratio `1/2`
that the claim states. -/
theorem C5_hit_rate_not_ratio_cex :
    (runTrace (mkLRUCache ℕ 2 300)
      [CacheOp.get "x".data 0, CacheOp.set "x".data 1 none 0,
        CacheOp.get "x".data 0]).2.1 = 1
    ∧ (runTrace (mkLRUCache ℕ 2 300)
        [CacheOp.get "x".data 0, CacheOp.set "x".data 1 none 0,
          CacheOp.get "x".data 0]).2.2 = 1
    ∧ (runTrace (mkLRUCache ℕ 2 300)
        [CacheOp.get "x".data 0, CacheOp.set "x".data 1 none 0,
          CacheOp.get "x".data 0]).1.stats.hit_rate = 50
    ∧ ¬ (runTrace (mkLRUCache ℕ 2 300)
        [CacheOp.get "x".data 0, CacheOp.set "x".data 1 none 0,
          CacheOp.get "x".data 0]).1.stats.hit_rate = 1 / 2 := by
  with_unfolding_all decide

/-- C5 as amended: after any operation sequence with `h` observed hits
and `m` observed misses, `stats` reports those counts together with the
size and the capacity, and its `hit_rate` is the percentage
`h / (h+m) * 100` (rendered by the code as a one-decimal percent
string), or `0` when no accesses have occurred. -/
theorem C5_stats_reports_percentage {α : Type} (cap : ℕ) (dttl : ℚ)
    (ops : List (CacheOp α)) (_hcap : 0 < cap) :
    (runTrace (mkLRUCache α cap dttl) ops).1.stats.hits
        = (runTrace (mkLRUCache α cap dttl) ops).2.1
    ∧ (runTrace (mkLRUCache α cap dttl) ops).1.stats.misses
        = (runTrace (mkLRUCache α cap dttl) ops).2.2
    ∧ (runTrace (mkLRUCache α cap dttl) ops).1.stats.size
        = (runTrace (mkLRUCache α cap dttl) ops).1.cache.length
    ∧ (runTrace (mkLRUCache α cap dttl) ops).1.stats.max_size = cap
    ∧ (runTrace (mkLRUCache α cap dttl) ops).1.stats.hit_rate
        = if (runTrace (mkLRUCache α cap dttl) ops).2.1
              + (runTrace (mkLRUCache α cap dttl) ops).2.2 = 0 then 0
          else ((runTrace (mkLRUCache α cap dttl) ops).2.1 : ℚ)
            / (((runTrace (mkLRUCache α cap dttl) ops).2.1 : ℚ)
                + ((runTrace (mkLRUCache α cap dttl) ops).2.2 : ℚ)) * 100 := by
  obtain ⟨h1, h2, h3⟩ := runTrace_counters ops (mkLRUCache α cap dttl)
  have e1 : (runTrace (mkLRUCache α cap dttl) ops).1.hits
      = (runTrace (mkLRUCache α cap dttl) ops).2.1 := by
    simpa [mkLRUCache] using h1
  have e2 : (runTrace (mkLRUCache α cap dttl) ops).1.misses
      = (runTrace (mkLRUCache α cap dttl) ops).2.2 := by
    simpa [mkLRUCache] using h2
  have e3 : (runTrace (mkLRUCache α cap dttl) ops).1.max_size = cap := by
    simpa [mkLRUCache] using h3
  refine ⟨e1, e2, rfl, e3, ?_⟩
  show (if 0 < (runTrace (mkLRUCache α cap dttl) ops).1.hits
        + (runTrace (mkLRUCache α cap dttl) ops).1.misses
      then ((runTrace (mkLRUCache α cap dttl) ops).1.hits : ℚ)
        / (((runTrace (mkLRUCache α cap dttl) ops).1.hits
            + (runTrace (mkLRUCache α cap dttl) ops).1.misses : ℕ) : ℚ) * 100
      else 0) = _
  rw [e1, e2]
  by_cases hz : (runTrace (mkLRUCache α cap dttl) ops).2.1
      + (runTrace (mkLRUCache α cap dttl) ops).2.2 = 0
  · simp [hz]
  · have hpos : 0 < (runTrace (mkLRUCache α cap dttl) ops).2.1
        + (runTrace (mkLRUCache α cap dttl) ops).2.2 := Nat.pos_of_ne_zero hz
    rw [if_pos hpos, if_neg hz]
    push_cast
    ring

/-- The concrete trace used by the C5 witness: a miss, a write, a hit. -/
def c5ops : List (CacheOp ℕ) :=
  [CacheOp.get "x".data 0, CacheOp.set "x".data 1 none 0, CacheOp.get "x".data 0]

/-- Witness for C5 as amended, at a concrete miss/write/hit trace. -/
theorem C5_stats_reports_percentage_witness :
    0 < 2
    ∧ (runTrace (mkLRUCache ℕ 2 300) c5ops).1.stats.hit_rate
        = if (runTrace (mkLRUCache ℕ 2 300) c5ops).2.1
              + (runTrace (mkLRUCache ℕ 2 300) c5ops).2.2 = 0 then 0
          else ((runTrace (mkLRUCache ℕ 2 300) c5ops).2.1 : ℚ)
            / (((runTrace (mkLRUCache ℕ 2 300) c5ops).2.1 : ℚ)
                + ((runTrace (mkLRUCache ℕ 2 300) c5ops).2.2 : ℚ)) * 100 :=
  ⟨by decide, (C5_stats_reports_percentage 2 300 c5ops (by decide)).2.2.2.2⟩

/-- C6 (confirmed): starting from a fresh cache of positive capacity,
after any sequence of `set`/`get` operations the number of entries never
exceeds the capacity and no two entries share a key. -/
theorem C6_size_bounded_and_keys_unique {α : Type} (cap : ℕ) (dttl : ℚ)
    (ops : List (CacheOp α)) (hcap : 0 < cap) :
    (runOps (mkLRUCache α cap dttl) ops).cache.length ≤ cap
    ∧ (((runOps (mkLRUCache α cap dttl) ops).cache.map Prod.fst)).Nodup := by
  obtain ⟨-, h2, h3⟩ :=
    runOps_inv ops (mkLRUCache α cap dttl) hcap (by simp [mkLRUCache])
      (by simp [mkLRUCache])
  exact ⟨h2, h3⟩

/-- Witness for C6 at a concrete run. -/
theorem C6_size_bounded_and_keys_unique_witness :
    0 < 2
    ∧ ((runOps (mkLRUCache ℕ 2 300)
          [CacheOp.set "a".data 1 none 0, CacheOp.set "b".data 2 none 0,
            CacheOp.set "c".data 3 none 0]).cache.length ≤ 2
      ∧ (((runOps (mkLRUCache ℕ 2 300)
          [CacheOp.set "a".data 1 none 0, CacheOp.set "b".data 2 none 0,
            CacheOp.set "c".data 3 none 0]).cache.map Prod.fst)).Nodup) :=
  ⟨by decide,
    C6_size_bounded_and_keys_unique 2 300
      [CacheOp.set "a".data 1 none 0, CacheOp.set "b".data 2 none 0,
        CacheOp.set "c".data 3 none 0] (by decide)⟩

/-- C7 (confirmed): a successful `get` promotes the entry to the
most-recently-used end, and a `set` of a fresh key at capacity evicts
exactly the least-recently-used (front) entry.  Concretely, with
capacity 2: `set a; set b; get a; set c` returns `1` for the get and
leaves exactly the keys `[a, c]` — `b` is evicted, not `a`. -/
theorem C7_get_promotes_and_set_evicts_lru (α : Type) :
    (((((mkLRUCache ℕ 2 300).set "a".data 1 none 0).set "b".data 2 none 0).get
        "a".data 0).1 = some 1
      ∧ (((((mkLRUCache ℕ 2 300).set "a".data 1 none 0).set "b".data 2
            none 0).get "a".data 0).2.set "c".data 3 none 0).cache.map Prod.fst
          = ["a".data, "c".data])
    ∧ (∀ (c : LRUCache α) (key : Str) (now : ℚ) (entry : CacheEntry α),
        ((c.cache.map Prod.fst)).Nodup →
        dictGet key c.cache = some entry → entry.is_expired now = false →
        ((c.get key now).2).cache.map Prod.fst
          = (c.cache.map Prod.fst).filter (fun a => a ≠ key) ++ [key])
    ∧ (∀ (c : LRUCache α) (key : Str) (v : α) (ttl : Option ℚ) (now : ℚ),
        0 < c.max_size → c.cache.length = c.max_size →
        key ∉ c.cache.map Prod.fst →
        (c.set key v ttl now).cache.map Prod.fst
          = (c.cache.map Prod.fst).tail ++ [key]) := by
  refine ⟨by with_unfolding_all decide, ?_, ?_⟩
  · intro c key now entry hnd hget hexp
    rw [get_hit_eq hget hexp]
    show ((dictDelete key c.cache
        ++ [(key, { entry with hits := entry.hits + 1 })]).map Prod.fst) = _
    rw [List.map_append, dictDelete_eq_filter hnd, map_fst_filter_ne]
    rfl
  · intro c key v ttl now h0 hlen hfresh
    show ((dictSet key
        { value := v, created_at := now, ttl := resolveTtl ttl c.default_ttl,
          hits := 0 } (evictWhile c.max_size c.cache)).map Prod.fst) = _
    rw [evictWhile_eq_tail hlen]
    have hfresh2 : key ∉ (c.cache.tail).map Prod.fst := by
      rw [List.map_tail]
      exact fun hmem => hfresh (List.mem_of_mem_tail hmem)
    rw [dictSet_of_not_mem _ hfresh2, List.map_append, List.map_tail]
    rfl

/-- Witness for C7 at concrete inputs: the promotion clause applied to a
capacity-2 cache holding `a, b` with `a` looked up, and the eviction
clause applied to a full capacity-1 cache receiving a fresh key. -/
theorem C7_get_promotes_and_set_evicts_lru_witness :
    (((((mkLRUCache ℕ 2 300).set "a".data 1 none 0).set "b".data 2 none 0).get
        "a".data 0).2.cache.map Prod.fst
      = ((((mkLRUCache ℕ 2 300).set "a".data 1 none 0).set "b".data 2
          none 0).cache.map Prod.fst).filter (fun a => a ≠ "a".data) ++ ["a".data])
    ∧ ((((mkLRUCache ℕ 1 300).set "x".data 7 none 0).set "y".data 8 none 0).cache.map
          Prod.fst
        = ((((mkLRUCache ℕ 1 300).set "x".data 7 none 0).cache.map Prod.fst).tail
            ++ ["y".data])) := by
  constructor
  · exact (C7_get_promotes_and_set_evicts_lru ℕ).2.1
      (((mkLRUCache ℕ 2 300).set "a".data 1 none 0).set "b".data 2 none 0)
      "a".data 0 { value := 1, created_at := 0, ttl := 300, hits := 0 }
      (by decide) (by decide) (by with_unfolding_all decide)
  · exact (C7_get_promotes_and_set_evicts_lru ℕ).2.2
      ((mkLRUCache ℕ 1 300).set "x".data 7 none 0) "y".data 8 none 0
      (by decide) (by decide) (by decide)

/-- C8 counterexample: two clauses of the claim fail on the code.
With `ttl = 0`, a non-null result is stored with the cache's *default*
TTL (300 here) instead of the given TTL, through the falsy-zero
`ttl or self.default_ttl` (cache.py line 107).  And a miss caused by an
expired entry is not state-preserving even when the result is null: the
lookup itself deletes the expired entry (cache.py line 78). -/
theorem C8_given_ttl_and_state_unchanged_cex :
    (dictGet "k".data
        (cached_ai_call (mkLRUCache ℕ 100 300) "k".data 0 (some 5) 0).state.cache
      = some { value := 5, created_at := 0, ttl := 300, hits := 0 })
    ∧ ¬ (dictGet "k".data
        (cached_ai_call (mkLRUCache ℕ 100 300) "k".data 0 (some 5) 0).state.cache
      = some { value := 5, created_at := 0, ttl := 0, hits := 0 })
    ∧ (cached_ai_call ((mkLRUCache ℕ 100 300).set "k".data 1 none 0) "k".data 60
        none 301).result = none
    ∧ ¬ (cached_ai_call ((mkLRUCache ℕ 100 300).set "k".data 1 none 0) "k".data 60
        none 301).state.cache
      = ((mkLRUCache ℕ 100 300).set "k".data 1 none 0).cache := by
  with_unfolding_all decide

/-- C8 as amended: on a cache miss — the key absent, or its entry
expired — `cached_ai_call` invokes the function and returns its result.
A null result is never cached: the entry map is exactly the one the
lookup itself left behind (unchanged when the key was absent; an
expired entry under the key has been removed by the lookup), the key is
absent from it, and an immediately following call with the same key
invokes the function again.  A non-null result is stored under the key
with the TTL `ttl or default_ttl`: the given TTL when it is non-zero,
the cache's default TTL when it is zero. -/
theorem C8_miss_retries_and_null_never_cached {α : Type} (c : LRUCache α)
    (key : Str) (ttl : ℚ) (func_result : Option α) (now : ℚ)
    (hmiss : (c.get key now).1 = none)
    (hkeys : ((c.cache.map Prod.fst)).Nodup)
    (_hcap : 0 < c.max_size) :
    (cached_ai_call c key ttl func_result now).invoked = true
    ∧ (cached_ai_call c key ttl func_result now).result = func_result
    ∧ (func_result = none →
        (cached_ai_call c key ttl func_result now).state.cache
            = ((c.get key now).2).cache
        ∧ (dictGet key c.cache = none →
            (cached_ai_call c key ttl func_result now).state.cache = c.cache)
        ∧ dictGet key (cached_ai_call c key ttl func_result now).state.cache = none
        ∧ ∀ (fr2 : Option α) (now2 : ℚ),
            (cached_ai_call (cached_ai_call c key ttl func_result now).state key
              ttl fr2 now2).invoked = true)
    ∧ (∀ v : α, func_result = some v →
        dictGet key (cached_ai_call c key ttl func_result now).state.cache
          = some { value := v, created_at := now,
                   ttl := if ttl = 0 then c.default_ttl else ttl, hits := 0 }) := by
  have hpair : c.get key now = (none, (c.get key now).2) := by rw [← hmiss]
  have hafter : dictGet key ((c.get key now).2).cache = none := by
    rcases hget : dictGet key c.cache with _ | entry
    · rw [get_miss_eq now hget]
      exact hget
    · rcases hexp : entry.is_expired now with _ | _
      · exfalso
        rw [get_hit_eq hget hexp] at hmiss
        exact Option.noConfusion hmiss
      · rw [get_expired_eq hget hexp]
        apply dictGet_eq_none_of_not_mem
        rw [dictDelete_eq_filter hkeys, map_fst_filter_ne]
        intro hmem
        exact absurd (List.mem_filter.1 hmem).2 (by simp)
  cases func_result with
  | none =>
    have hc : cached_ai_call c key ttl none now
        = { result := none, state := (c.get key now).2, invoked := true } := by
      unfold cached_ai_call
      rw [hpair]
    rw [hc]
    refine ⟨rfl, rfl,
      fun _ => ⟨rfl, fun habs => ?_, hafter, fun fr2 now2 => ?_⟩,
      fun v hv => Option.noConfusion hv⟩
    · rw [get_miss_eq now habs]
    · have hg2 := @get_miss_eq α ((c.get key now).2) key now2 hafter
      cases fr2 with
      | none =>
        unfold cached_ai_call
        rw [hg2]
      | some w =>
        unfold cached_ai_call
        rw [hg2]
  | some v =>
    have hc : cached_ai_call c key ttl (some v) now
        = { result := some v,
            state := ((c.get key now).2).set key v (some ttl) now,
            invoked := true } := by
      unfold cached_ai_call
      rw [hpair]
    rw [hc]
    refine ⟨rfl, rfl, fun h => Option.noConfusion h, fun w hw => ?_⟩
    cases hw
    have httl_eq : resolveTtl (some ttl) ((c.get key now).2).default_ttl
        = if ttl = 0 then c.default_ttl else ttl := by
      rw [get_default_ttl]
      rfl
    calc dictGet key (((c.get key now).2).set key v (some ttl) now).cache
        = some { value := v, created_at := now,
                 ttl := resolveTtl (some ttl) ((c.get key now).2).default_ttl,
                 hits := 0 } :=
          dictGet_dictSet_self key _ _
      _ = some { value := v, created_at := now,
                 ttl := if ttl = 0 then c.default_ttl else ttl, hits := 0 } := by
          rw [httl_eq]

/-- Witness for C8 as amended: an absent-key miss with a failed
computation leaves the (empty) entry map unchanged, and an expired-entry
miss with a successful computation stores the result with the given
non-zero TTL. -/
theorem C8_miss_retries_and_null_never_cached_witness :
    ((cached_ai_call (mkLRUCache ℕ 100 300) "k".data 60 none 0).invoked = true
      ∧ (cached_ai_call (mkLRUCache ℕ 100 300) "k".data 60 none 0).state.cache
          = (mkLRUCache ℕ 100 300).cache)
    ∧ dictGet "k".data
        (cached_ai_call ((mkLRUCache ℕ 100 300).set "k".data 1 none 0) "k".data 60
          (some 5) 301).state.cache
        = some { value := 5, created_at := 301, ttl := 60, hits := 0 } := by
  have h1 := C8_miss_retries_and_null_never_cached (mkLRUCache ℕ 100 300) "k".data
    60 none 0 (by decide) (by decide) (by decide)
  have h2 := C8_miss_retries_and_null_never_cached
    ((mkLRUCache ℕ 100 300).set "k".data 1 none 0) "k".data 60 (some 5) 301
    (by with_unfolding_all decide) (by decide) (by decide)
  refine ⟨⟨h1.1, (h1.2.2.1 rfl).2.1 (by decide)⟩, ?_⟩
  have h2c := h2.2.2.2 5 rfl
  rw [if_neg (by norm_num)] at h2c
  exact h2c

/-- C9 counterexample: with `keepMax = 0` the Python slice
`completed[:-0]` is empty, so `cleanup_improvement_tasks` removes
nothing even though more than `0` completed entries exist — the
registry keeps one completed entry instead of retaining exactly the `0`
most recent ones. -/
theorem C9_prune_keepmax_zero_cex :
    cleanup_improvement_tasks
        [("t1".data, ({ task := 0, status := "completed".data, result := none } :
          TaskInfo ℕ ℕ))] 0
      = [("t1".data, { task := 0, status := "completed".data, result := none })]
    ∧ ([("t1".data, ({ task := 0, status := "completed".data, result := none } :
          TaskInfo ℕ ℕ))].filter (fun p => isDone p.2)).length = 1 := by
  decide

/-- C9 as amended, for `keepMax ≥ 1` (with `keepMax = 0` the quirky
empty slice `completed[:-0]` makes pruning a no-op): pruning removes
only completed/errored entries, never a still-running one, and the
completed/errored entries that survive are exactly the `keepMax` most
recently registered ones (all of them when there are at most
`keepMax`). -/
theorem C9_prune_keeps_running_and_recent_done {τ ρ : Type}
    (tasks : List (Str × TaskInfo τ ρ)) (keepMax : ℕ) (hpos : 0 < keepMax)
    (hkeys : ((tasks.map Prod.fst)).Nodup) :
    (cleanup_improvement_tasks tasks keepMax).Sublist tasks
    ∧ (∀ p ∈ tasks, isDone p.2 = false →
        p ∈ cleanup_improvement_tasks tasks keepMax)
    ∧ (cleanup_improvement_tasks tasks keepMax).filter (fun p => isDone p.2)
        = (tasks.filter (fun p => isDone p.2)).drop
            ((tasks.filter (fun p => isDone p.2)).length - keepMax) := by
  by_cases hgt : ((tasks.filter (fun p => isDone p.2)).map Prod.fst).length > keepMax
  · have hform := cleanup_of_gt tasks (Nat.pos_iff_ne_zero.1 hpos) hgt
    rw [hform, foldl_dictDelete_eq_filter _ hkeys]
    refine ⟨List.filter_sublist _, ?_, ?_⟩
    · intro p hp hdone
      refine List.mem_filter.2 ⟨hp, ?_⟩
      simp only [decide_eq_true_eq]
      intro hmem
      have hmem2 : p.1 ∈ (tasks.filter (fun p => isDone p.2)).map Prod.fst :=
        List.take_subset _ _ hmem
      obtain ⟨q, hqL, hq1⟩ := List.mem_map.1 hmem2
      have hqT : q ∈ tasks := List.mem_of_mem_filter hqL
      have hqdone : isDone q.2 = true := (List.mem_filter.1 hqL).2
      have hqp : q = p := List.inj_on_of_nodup_map hkeys hqT hp hq1
      rw [hqp, hdone] at hqdone
      exact absurd hqdone (by simp)
    · have hcomm : ∀ (A B : Str × TaskInfo τ ρ → Bool),
          (tasks.filter A).filter B = (tasks.filter B).filter A := by
        intro A B
        rw [List.filter_filter, List.filter_filter]
        exact List.filter_congr fun a _ => Bool.and_comm _ _
      rw [hcomm]
      have hLnd : (((tasks.filter (fun p => isDone p.2)).map Prod.fst)).Nodup :=
        hkeys.sublist ((List.filter_sublist _).map _)
      have hch := filter_not_mem_take_keys (tasks.filter (fun p => isDone p.2))
        (((tasks.filter (fun p => isDone p.2)).map Prod.fst).length - keepMax) hLnd
      rw [List.length_map] at hch
      rw [List.length_map]
      exact hch
  · rw [cleanup_of_le tasks keepMax hgt]
    have hle : (tasks.filter (fun p => isDone p.2)).length ≤ keepMax := by
      rw [← List.length_map (tasks.filter (fun p => isDone p.2)) Prod.fst]
      exact not_lt.1 hgt
    refine ⟨List.Sublist.refl _, fun p hp _ => hp, ?_⟩
    rw [Nat.sub_eq_zero_of_le hle, List.drop_zero]

/-- The concrete registry used by the C9 witness: three
completed/errored entries around one running entry. -/
def sampleRegistry : List (Str × TaskInfo ℕ ℕ) :=
  [("t1".data, { task := 0, status := "completed".data, result := none }),
    ("t2".data, { task := 0, status := "running".data, result := none }),
    ("t3".data, { task := 0, status := "error".data, result := none }),
    ("t4".data, { task := 0, status := "completed".data, result := none })]

/-- Witness for C9: a registry with three completed/errored entries and
one running entry, pruned with `keepMax = 2`. -/
theorem C9_prune_keeps_running_and_recent_done_witness :
    (cleanup_improvement_tasks sampleRegistry 2).filter (fun p => isDone p.2)
      = (sampleRegistry.filter (fun p => isDone p.2)).drop
          ((sampleRegistry.filter (fun p => isDone p.2)).length - 2) :=
  (C9_prune_keeps_running_and_recent_done sampleRegistry 2 (by decide)
    (by decide)).2.2

/-- C10 (confirmed): immediately after `set_vacancy_analysis`, a
`get_vacancy_analysis` with the same vacancy text and model — and no
intervening operations or time advance — returns the stored result: the
two key derivations agree, and the fresh entry (age `0`, TTL one hour)
is neither expired nor evicted by its own insertion. -/
theorem C10_vacancy_analysis_roundtrip {α : Type} (H : Str → Str)
    (c : LRUCache α) (vacancy_text model : Str) (result : α) (now : ℚ)
    (_hcap : 0 < c.max_size) :
    (get_vacancy_analysis H
      (set_vacancy_analysis H c vacancy_text model result now)
      vacancy_text model now).1 = some result := by
  unfold get_vacancy_analysis set_vacancy_analysis
  apply get_after_set
  norm_num [resolveTtl, TTL_VACANCY_ANALYSIS]

/-- Witness for C10 with the digest taken as the identity function and
the cache dimensioned as in `AIResponseCache.__init__`. -/
theorem C10_vacancy_analysis_roundtrip_witness :
    0 < (mkLRUCache ℕ 200 3600).max_size
    ∧ (get_vacancy_analysis id
        (set_vacancy_analysis id (mkLRUCache ℕ 200 3600) "vacancy".data
          "mistral".data 7 0) "vacancy".data "mistral".data 0).1 = some 7 :=
  ⟨by decide,
    C10_vacancy_analysis_roundtrip id (mkLRUCache ℕ 200 3600) "vacancy".data
      "mistral".data 7 0 (by decide)⟩

end JobStalker
